/-
Verification of the llir/llvm translator core: a shallow embedding of
`asm/translate.go` (the `translate` pipeline and `addDefsToModule`) and of
the `ir` package fragments it relies on (`Function.AssignIDs`, `isVoidValue`,
`Alias.Type`, `NewAlias`), together with theorems settling the specification
claims about ordering, local-ID assignment, error propagation and alias
typing.

Go's in-place mutation is rendered as explicit state passing: a method that
mutates its receiver becomes a Lean function returning the updated value.
A Go `panic` is rendered as `Option.none`; a returned `error` as
`Except.error`.
-/
import Mathlib

namespace Llvm

/-! ### Types (`ir/types`)

Only the fragment of the `types` package observed by the verified code is
embedded: `types.Void` and pointer types (`types.PointerType`, whose element
type is the only field read). -/

inductive LLType where
  | void : LLType
  | label : LLType
  | intType (bits : Nat) : LLType
  | pointer (elem : LLType) : LLType
  deriving DecidableEq, Repr

namespace IR

/-! ### Aliases (`ir/alias.go`) -/

/-- Model of `constant.Constant` as observed by `alias.go`: the only method
invoked on the aliasee is `Type()`, so a constant is its type. -/
structure IRConstant where
  typ : LLType
  deriving DecidableEq, Repr

/-- `ir.Alias`: alias name (the `GlobalIdent` embed), aliasee, and the cached
pointer type of the aliasee (`Typ *types.PointerType`; `none` models `nil`).
The optional decoration fields (linkage, preemption, visibility, DLL storage
class, TLS model, unnamed address) are not read by the verified operations
and are omitted. -/
structure Alias where
  globalName : String
  aliasee : IRConstant
  typ : Option LLType
  deriving DecidableEq, Repr

/-- `Alias.Type`: returns the type of the alias, caching it on first use.
If `Typ` is `nil`, the aliasee's type is asserted to be a pointer type
(`panic`, i.e. `none`, otherwise) and stored. The returned pair is the
result of `Type()` together with the receiver after the cache write. -/
def Alias.getType (a : Alias) : Option (LLType × Alias) :=
  match a.typ with
  | some t => some (t, a)
  | none =>
    match a.aliasee.typ with
    | LLType.pointer e => some (LLType.pointer e, { a with typ := some (LLType.pointer e) })
    | _ => none

/-- `ir.NewAlias`: builds `&Alias{Aliasee: aliasee}`, sets the name, and
invokes `Type()` to compute the cached type (propagating its panic). -/
def NewAlias (name : String) (aliasee : IRConstant) : Option Alias :=
  let a : Alias := { globalName := name, aliasee := aliasee, typ := none }
  (Alias.getType a).map Prod.snd

/-! ### Functions and local-ID assignment (`ir/function.go`) -/

/-- `ir.Param`: a function parameter, as observed through `value.Named`
(`Name`/`SetName`) during local-ID assignment. -/
structure Param where
  name : String
  typ : LLType
  deriving DecidableEq, Repr

/-- An instruction of a basic block, classified by how `AssignIDs` observes
it: `nonValue` for instructions that do not implement `value.Named`
(e.g. store, fence); `call` for `*ir.InstCall` (named, possibly of void
type); `namedValue` for every other value-producing instruction. -/
inductive Inst where
  | nonValue : Inst
  | call (name : String) (typ : LLType) : Inst
  | namedValue (name : String) (typ : LLType) : Inst
  deriving DecidableEq, Repr

/-- A terminator, classified the same way: `nonValue` for terminators that do
not implement `value.Named` (ret, br, ...); `invoke` for `*ir.TermInvoke`;
`namedValue` for any other named terminator. -/
inductive Term where
  | nonValue : Term
  | invoke (name : String) (typ : LLType) : Term
  | namedValue (name : String) (typ : LLType) : Term
  deriving DecidableEq, Repr

/-- `ir.BasicBlock`: local name, instruction list, terminator. -/
structure BasicBlock where
  name : String
  insts : List Inst
  term : Term
  deriving DecidableEq, Repr

/-- `ir.Function`: the fields observed by `AssignIDs` (`GlobalName`,
`Params`, `Blocks`); the signature and the optional decoration fields are
omitted as unused by the verified operations. -/
structure Function where
  globalName : String
  params : List Param
  blocks : List BasicBlock
  deriving DecidableEq, Repr

/-- `isVoidValue` on instructions: a call of void return type is a
non-value; every other named instruction is not. -/
def Inst.isVoidValue : Inst → Bool
  | Inst.call _ t => t == LLType.void
  | _ => false

/-- `isVoidValue` on terminators: an invoke of void return type is a
non-value; every other named terminator is not. -/
def Term.isVoidValue : Term → Bool
  | Term.invoke _ t => t == LLType.void
  | _ => false

/-- Modelled from the spec: `isUnnamed` (not under `src/`) holds for an
entity carrying no name — "for each unnamed named entity, assigns the next
free decimal ID as its name". -/
def isUnnamed (name : String) : Bool :=
  name == ""

/-- Modelled from the spec: `isLocalID` (not under `src/`) holds for an
entity "already carrying a numeric name": a non-empty all-decimal-digit
name. -/
def isLocalID (name : String) : Bool :=
  !(name == "") && name.data.all Char.isDigit

/-- The error returned by `AssignIDs`: `BadLocalID(func, expected, got)`,
carrying the enclosing function's name and the expected and actual IDs. -/
inductive AsmError where
  | badLocalID (func : String) (expected : String) (got : String) : AsmError
  deriving DecidableEq, Repr

/-- The `setName` closure of `AssignIDs`, acting on one named entity's
current name `got` with counter `id`: an unnamed entity receives
`strconv.Itoa(id)` and the counter advances; an entity already carrying a
numeric name must match the counter (else `BadLocalID`) and the counter
advances; any other named entity is left untouched. Returns the entity's
new name and the new counter. -/
def setName (fname : String) (id : Nat) (got : String) : Except AsmError (String × Nat) :=
  if isUnnamed got then
    Except.ok (Nat.repr id, id + 1)
  else if isLocalID got then
    let want := Nat.repr id
    if want != got then
      Except.error (AsmError.badLocalID fname want got)
    else
      Except.ok (got, id + 1)
  else
    Except.ok (got, id)

/-- The parameter loop of `AssignIDs`: assign local IDs to unnamed
parameters, in order. -/
def assignParams (fname : String) : Nat → List Param → Except AsmError (List Param × Nat)
  | id, [] => Except.ok ([], id)
  | id, p :: ps => do
    let (n, id') ← setName fname id p.name
    let (ps', id'') ← assignParams fname id' ps
    Except.ok ({ p with name := n } :: ps', id'')

/-- One instruction of the block loop of `AssignIDs`: instructions that do
not implement `value.Named` are skipped, void instructions are skipped, and
every other instruction goes through `setName`. -/
def assignInst (fname : String) (id : Nat) : Inst → Except AsmError (Inst × Nat)
  | Inst.nonValue => Except.ok (Inst.nonValue, id)
  | Inst.call n t =>
    if t == LLType.void then Except.ok (Inst.call n t, id)
    else do
      let (n', id') ← setName fname id n
      Except.ok (Inst.call n' t, id')
  | Inst.namedValue n t => do
    let (n', id') ← setName fname id n
    Except.ok (Inst.namedValue n' t, id')

/-- The instruction loop of `AssignIDs` over one block's instructions. -/
def assignInsts (fname : String) : Nat → List Inst → Except AsmError (List Inst × Nat)
  | id, [] => Except.ok ([], id)
  | id, i :: is => do
    let (i', id') ← assignInst fname id i
    let (is', id'') ← assignInsts fname id' is
    Except.ok (i' :: is', id'')

/-- The terminator step of `AssignIDs`: terminators that do not implement
`value.Named` are skipped, void invokes are skipped, and every other named
terminator goes through `setName`. -/
def assignTerm (fname : String) (id : Nat) : Term → Except AsmError (Term × Nat)
  | Term.nonValue => Except.ok (Term.nonValue, id)
  | Term.invoke n t =>
    if t == LLType.void then Except.ok (Term.invoke n t, id)
    else do
      let (n', id') ← setName fname id n
      Except.ok (Term.invoke n' t, id')
  | Term.namedValue n t => do
    let (n', id') ← setName fname id n
    Except.ok (Term.namedValue n' t, id')

/-- One block of the block loop of `AssignIDs`: name the block, then its
instructions, then its terminator. -/
def assignBlock (fname : String) (id : Nat) (b : BasicBlock) : Except AsmError (BasicBlock × Nat) := do
  let (n, id1) ← setName fname id b.name
  let (is, id2) ← assignInsts fname id1 b.insts
  let (t, id3) ← assignTerm fname id2 b.term
  Except.ok ({ name := n, insts := is, term := t }, id3)

/-- The block loop of `AssignIDs`. -/
def assignBlocks (fname : String) : Nat → List BasicBlock → Except AsmError (List BasicBlock × Nat)
  | id, [] => Except.ok ([], id)
  | id, b :: bs => do
    let (b', id') ← assignBlock fname id b
    let (bs', id'') ← assignBlocks fname id' bs
    Except.ok (b' :: bs', id'')

/-- `Function.AssignIDs`: assigns IDs to unnamed local variables. A function
with no basic blocks is left untouched; otherwise the counter starts at 0
and runs through the parameters, then each block, its value-producing
instructions and its terminator. -/
def Function.AssignIDs (f : Function) : Except AsmError Function :=
  if f.blocks.length == 0 then
    Except.ok f
  else do
    let (ps, id1) ← assignParams f.globalName 0 f.params
    let (bs, _) ← assignBlocks f.globalName id1 f.blocks
    Except.ok { f with params := ps, blocks := bs }

/-- The name under which an instruction participates in local-ID assignment:
`none` exactly when the instruction is skipped (not `value.Named`, or a void
call). -/
def Inst.assignableName? : Inst → Option String
  | Inst.nonValue => none
  | Inst.call n t => if t == LLType.void then none else some n
  | Inst.namedValue n _ => some n

/-- The name under which a terminator participates in local-ID assignment:
`none` exactly when the terminator is skipped. -/
def Term.assignableName? : Term → Option String
  | Term.nonValue => none
  | Term.invoke n t => if t == LLType.void then none else some n
  | Term.namedValue n _ => some n

/-- The names a basic block contributes to local-ID assignment, in traversal
order: the block's own name, then its value-producing instructions, then its
terminator if value-producing. -/
def blockNames (b : BasicBlock) : List String :=
  b.name :: (b.insts.filterMap Inst.assignableName? ++ (Term.assignableName? b.term).toList)

/-- All names of a function that participate in local-ID assignment, in
traversal order: parameters first, then each block's names. -/
def localNames (f : Function) : List String :=
  f.params.map Param.name ++ f.blocks.flatMap blockNames

/-- The numeric local IDs of a function, in traversal order. -/
def localIDNames (f : Function) : List String :=
  (localNames f).filter (fun n => isLocalID n)

/-! #### Decimal representations are numeric local IDs -/

theorem digitChar_isDigit {m : Nat} (h : m < 10) : (Nat.digitChar m).isDigit = true := by
  interval_cases m <;> rfl

theorem toDigitsCore_digits :
    ∀ (fuel n : Nat) (ds : List Char), (∀ c ∈ ds, c.isDigit = true) →
      ∀ c ∈ Nat.toDigitsCore 10 fuel n ds, c.isDigit = true := by
  intro fuel
  induction fuel with
  | zero => intro n ds h; simpa [Nat.toDigitsCore] using h
  | succ fuel ih =>
    intro n ds h c hc
    have hcons : ∀ c ∈ Nat.digitChar (n % 10) :: ds, c.isDigit = true := by
      intro c hc
      rcases List.mem_cons.mp hc with h1 | h2
      · exact h1 ▸ digitChar_isDigit (Nat.mod_lt _ (by norm_num))
      · exact h c h2
    rw [Nat.toDigitsCore] at hc
    by_cases h10 : n / 10 = 0
    · simp only [h10, if_pos] at hc
      exact hcons c hc
    · simp only [h10, if_neg, not_false_iff] at hc
      exact ih _ _ hcons c hc

theorem toDigitsCore_ne_nil :
    ∀ (fuel n : Nat) (ds : List Char), 0 < fuel ∨ ds ≠ [] →
      Nat.toDigitsCore 10 fuel n ds ≠ [] := by
  intro fuel
  induction fuel with
  | zero =>
    intro n ds h
    rcases h with h | h
    · exact absurd h (by omega)
    · simpa [Nat.toDigitsCore] using h
  | succ fuel ih =>
    intro n ds _
    rw [Nat.toDigitsCore]
    by_cases h10 : n / 10 = 0
    · simp [h10]
    · simp only [h10, if_neg, not_false_iff]
      exact ih _ _ (Or.inr (by simp))

theorem repr_ne_empty (n : Nat) : Nat.repr n ≠ "" := by
  intro h
  have hd : (Nat.repr n).data = [] := congrArg String.data h
  have : (Nat.repr n).data = Nat.toDigitsCore 10 (n + 1) n [] := rfl
  rw [this] at hd
  exact toDigitsCore_ne_nil (n + 1) n [] (Or.inl (by omega)) hd

theorem isUnnamed_repr (n : Nat) : isUnnamed (Nat.repr n) = false := by
  have := repr_ne_empty n
  simp [isUnnamed]
  exact this

theorem isLocalID_repr (n : Nat) : isLocalID (Nat.repr n) = true := by
  have hne : (Nat.repr n == "") = false := by
    simpa using repr_ne_empty n
  have hall : (Nat.repr n).data.all Char.isDigit = true := by
    rw [List.all_eq_true]
    intro c hc
    exact toDigitsCore_digits (n + 1) n [] (by simp) c hc
  simp [isLocalID, hne, hall]

/-! #### Inverting `Except` binds -/

theorem ebind_ok {ε α β : Type} {x : Except ε α} {f : α → Except ε β} {y : β}
    (h : (x >>= f) = Except.ok y) : ∃ a, x = Except.ok a ∧ f a = Except.ok y := by
  cases x with
  | error e => simp [Bind.bind, Except.bind] at h
  | ok a => exact ⟨a, rfl, by simpa [Bind.bind, Except.bind] using h⟩

/-! #### Characterizing `setName` -/

theorem setName_ok {fname : String} {id : Nat} {got nm : String} {id' : Nat}
    (h : setName fname id got = Except.ok (nm, id')) :
    (nm = Nat.repr id ∧ id' = id + 1 ∧ isLocalID nm = true) ∨
      (isLocalID nm = false ∧ nm = got ∧ id' = id) := by
  unfold setName at h
  by_cases hu : isUnnamed got = true
  · rw [if_pos hu] at h
    obtain ⟨h1, h2⟩ : Nat.repr id = nm ∧ id + 1 = id' := by
      have := h
      simp at this
      exact ⟨this.1, this.2⟩
    exact Or.inl ⟨h1.symm, h2.symm, h1 ▸ isLocalID_repr id⟩
  · rw [if_neg hu] at h
    by_cases hl : isLocalID got = true
    · rw [if_pos hl] at h
      by_cases hne : (Nat.repr id != got) = true
      · rw [if_pos hne] at h
        exact absurd h (by simp)
      · rw [if_neg hne] at h
        have heq : Nat.repr id = got := by
          have : (Nat.repr id != got) = false := by
            revert hne; cases (Nat.repr id != got) <;> simp
          simpa using this
        obtain ⟨h1, h2⟩ : got = nm ∧ id + 1 = id' := by
          have := h; simp at this; exact ⟨this.1, this.2⟩
        exact Or.inl ⟨h1 ▸ heq.symm, h2.symm, h1 ▸ hl⟩
    · rw [if_neg hl] at h
      obtain ⟨h1, h2⟩ : got = nm ∧ id = id' := by
        have := h; simp at this; exact ⟨this.1, this.2⟩
      have hlnm : isLocalID nm = false := by
        revert hl; rw [h1]; cases isLocalID nm <;> simp
      exact Or.inr ⟨hlnm, h1.symm, h2.symm⟩

theorem setName_idem {fname : String} {id : Nat} {got nm : String} {id' : Nat}
    (h : setName fname id got = Except.ok (nm, id')) :
    setName fname id nm = Except.ok (nm, id') := by
  rcases setName_ok h with ⟨rfl, rfl, _⟩ | ⟨hl, rfl, rfl⟩
  · unfold setName
    rw [if_neg (by simp [isUnnamed_repr])]
    rw [if_pos (isLocalID_repr id)]
    rw [if_neg (by simp)]
  · exact h

/-! #### Gap-free ID runs

`IDRun id id' names` states that the numeric local IDs among `names`, in
order, are exactly the decimal representations of `id, id+1, ..., id'-1`. -/

theorem eok_pair {e a b : Type} {x : a} {y : b} {x' : a} {y' : b}
    (h : (Except.ok (x, y) : Except e (a × b)) = Except.ok (x', y')) : x = x' ∧ y = y' := by
  have hp := Except.ok.inj h
  exact ⟨congrArg Prod.fst hp, congrArg Prod.snd hp⟩

def IDRun (id id' : Nat) (names : List String) : Prop :=
  id ≤ id' ∧
    names.filter (fun n => isLocalID n) = (List.range' id (id' - id)).map Nat.repr

theorem IDRun.nil (id : Nat) : IDRun id id [] := by
  constructor
  · exact le_refl id
  · simp

theorem IDRun.append {id id' id'' : Nat} {xs ys : List String}
    (h1 : IDRun id id' xs) (h2 : IDRun id' id'' ys) : IDRun id id'' (xs ++ ys) := by
  obtain ⟨hle1, hf1⟩ := h1
  obtain ⟨hle2, hf2⟩ := h2
  refine ⟨le_trans hle1 hle2, ?_⟩
  rw [List.filter_append, hf1, hf2, ← List.map_append]
  have harith1 : id + 1 * (id' - id) = id' := by omega
  have harith2 : id'' - id' + (id' - id) = id'' - id := by omega
  have hr := List.range'_append id (id' - id) (id'' - id') 1
  rw [harith1] at hr
  rw [hr, harith2]

theorem setName_IDRun {fname : String} {id : Nat} {got nm : String} {id' : Nat}
    (h : setName fname id got = Except.ok (nm, id')) : IDRun id id' [nm] := by
  rcases setName_ok h with ⟨rfl, rfl, hl⟩ | ⟨hl, _, rfl⟩
  · refine ⟨by omega, ?_⟩
    simp [isLocalID_repr, List.range']
  · exact ⟨le_refl _, by simp [hl]⟩

theorem assignParams_IDRun {fname : String} :
    ∀ {id : Nat} {ps : List Param} {ps' : List Param} {id' : Nat},
      assignParams fname id ps = Except.ok (ps', id') →
        IDRun id id' (ps'.map Param.name) := by
  intro id ps
  induction ps generalizing id with
  | nil =>
    intro ps' id' h
    simp only [assignParams] at h
    obtain ⟨h1, h2⟩ := eok_pair h
    rw [← h1, ← h2]
    exact IDRun.nil id
  | cons p ps ih =>
    intro ps' id' h
    simp only [assignParams] at h
    obtain ⟨⟨n, id1⟩, hs, h⟩ := ebind_ok h
    obtain ⟨⟨ps1, id2⟩, hr, h⟩ := ebind_ok h
    obtain ⟨h1, h2⟩ := eok_pair h
    rw [← h1, ← h2]
    have hmap : ((({ p with name := n } : Param) :: ps1).map Param.name) =
        [n] ++ ps1.map Param.name := by simp
    rw [hmap]
    exact IDRun.append (setName_IDRun hs) (ih hr)

theorem assignInst_IDRun {fname : String} {id : Nat} {i i' : Inst} {id' : Nat}
    (h : assignInst fname id i = Except.ok (i', id')) :
    IDRun id id' i'.assignableName?.toList := by
  cases i with
  | nonValue =>
    simp only [assignInst] at h
    obtain ⟨h1, h2⟩ := eok_pair h
    rw [← h1, ← h2]
    exact IDRun.nil id
  | call n t =>
    simp only [assignInst] at h
    by_cases ht : (t == LLType.void) = true
    · rw [if_pos ht] at h
      obtain ⟨h1, h2⟩ := eok_pair h
      rw [← h1, ← h2]
      simp only [Inst.assignableName?, if_pos ht, Option.toList_none]
      exact IDRun.nil id
    · rw [if_neg ht] at h
      obtain ⟨⟨n', id1⟩, hs, h⟩ := ebind_ok h
      obtain ⟨h1, h2⟩ := eok_pair h
      rw [← h1, ← h2]
      simp only [Inst.assignableName?, if_neg ht, Option.toList_some]
      exact setName_IDRun hs
  | namedValue n t =>
    simp only [assignInst] at h
    obtain ⟨⟨n', id1⟩, hs, h⟩ := ebind_ok h
    obtain ⟨h1, h2⟩ := eok_pair h
    rw [← h1, ← h2]
    simp only [Inst.assignableName?, Option.toList_some]
    exact setName_IDRun hs

theorem assignTerm_IDRun {fname : String} {id : Nat} {t t' : Term} {id' : Nat}
    (h : assignTerm fname id t = Except.ok (t', id')) :
    IDRun id id' t'.assignableName?.toList := by
  cases t with
  | nonValue =>
    simp only [assignTerm] at h
    obtain ⟨h1, h2⟩ := eok_pair h
    rw [← h1, ← h2]
    exact IDRun.nil id
  | invoke n ty =>
    simp only [assignTerm] at h
    by_cases ht : (ty == LLType.void) = true
    · rw [if_pos ht] at h
      obtain ⟨h1, h2⟩ := eok_pair h
      rw [← h1, ← h2]
      simp only [Term.assignableName?, if_pos ht, Option.toList_none]
      exact IDRun.nil id
    · rw [if_neg ht] at h
      obtain ⟨⟨n', id1⟩, hs, h⟩ := ebind_ok h
      obtain ⟨h1, h2⟩ := eok_pair h
      rw [← h1, ← h2]
      simp only [Term.assignableName?, if_neg ht, Option.toList_some]
      exact setName_IDRun hs
  | namedValue n ty =>
    simp only [assignTerm] at h
    obtain ⟨⟨n', id1⟩, hs, h⟩ := ebind_ok h
    obtain ⟨h1, h2⟩ := eok_pair h
    rw [← h1, ← h2]
    simp only [Term.assignableName?, Option.toList_some]
    exact setName_IDRun hs

theorem filterMap_cons_toList {a b : Type} (f : a → Option b) (x : a) (l : List a) :
    List.filterMap f (x :: l) = (f x).toList ++ List.filterMap f l := by
  rw [List.filterMap_cons]
  cases f x <;> simp

theorem assignInsts_IDRun {fname : String} :
    ∀ {id : Nat} {is is' : List Inst} {id' : Nat},
      assignInsts fname id is = Except.ok (is', id') →
        IDRun id id' (is'.filterMap Inst.assignableName?) := by
  intro id is
  induction is generalizing id with
  | nil =>
    intro is' id' h
    simp only [assignInsts] at h
    obtain ⟨h1, h2⟩ := eok_pair h
    rw [← h1, ← h2]
    exact IDRun.nil id
  | cons i is ih =>
    intro is' id' h
    simp only [assignInsts] at h
    obtain ⟨⟨i1, id1⟩, hs, h⟩ := ebind_ok h
    obtain ⟨⟨is1, id2⟩, hr, h⟩ := ebind_ok h
    obtain ⟨h1, h2⟩ := eok_pair h
    rw [← h1, ← h2, filterMap_cons_toList]
    exact IDRun.append (assignInst_IDRun hs) (ih hr)

theorem assignBlock_IDRun {fname : String} {id : Nat} {b b' : BasicBlock} {id' : Nat}
    (h : assignBlock fname id b = Except.ok (b', id')) :
    IDRun id id' (blockNames b') := by
  simp only [assignBlock] at h
  obtain ⟨⟨n, id1⟩, hs, h⟩ := ebind_ok h
  obtain ⟨⟨is, id2⟩, hi, h⟩ := ebind_ok h
  obtain ⟨⟨t, id3⟩, ht, h⟩ := ebind_ok h
  obtain ⟨h1, h2⟩ := eok_pair h
  rw [← h1, ← h2]
  have hshape : blockNames { name := n, insts := is, term := t } =
      [n] ++ (is.filterMap Inst.assignableName? ++ t.assignableName?.toList) := by
    simp [blockNames]
  rw [hshape]
  exact IDRun.append (setName_IDRun hs)
    (IDRun.append (assignInsts_IDRun hi) (assignTerm_IDRun ht))

theorem assignBlocks_IDRun {fname : String} :
    ∀ {id : Nat} {bs bs' : List BasicBlock} {id' : Nat},
      assignBlocks fname id bs = Except.ok (bs', id') →
        IDRun id id' (bs'.flatMap blockNames) := by
  intro id bs
  induction bs generalizing id with
  | nil =>
    intro bs' id' h
    simp only [assignBlocks] at h
    obtain ⟨h1, h2⟩ := eok_pair h
    rw [← h1, ← h2]
    exact IDRun.nil id
  | cons b bs ih =>
    intro bs' id' h
    simp only [assignBlocks] at h
    obtain ⟨⟨b1, id1⟩, hs, h⟩ := ebind_ok h
    obtain ⟨⟨bs1, id2⟩, hr, h⟩ := ebind_ok h
    obtain ⟨h1, h2⟩ := eok_pair h
    rw [← h1, ← h2]
    have hshape : (b1 :: bs1).flatMap blockNames = blockNames b1 ++ bs1.flatMap blockNames := by
      simp
    rw [hshape]
    exact IDRun.append (assignBlock_IDRun hs) (ih hr)

theorem AssignIDs_IDRun {f f' : Function}
    (hne : f.blocks ≠ []) (h : Function.AssignIDs f = Except.ok f') :
    ∃ k, IDRun 0 k (localNames f') := by
  unfold Function.AssignIDs at h
  rw [if_neg (by simpa using hne)] at h
  obtain ⟨⟨ps, id1⟩, hp, h⟩ := ebind_ok h
  obtain ⟨⟨bs, id2⟩, hb, h⟩ := ebind_ok h
  have hf' : ({ f with params := ps, blocks := bs } : Function) = f' := Except.ok.inj h
  refine ⟨id2, ?_⟩
  rw [← hf']
  have hshape : localNames { f with params := ps, blocks := bs } =
      ps.map Param.name ++ bs.flatMap blockNames := by simp [localNames]
  rw [hshape]
  exact IDRun.append (assignParams_IDRun hp) (assignBlocks_IDRun hb)

/-- The general gap-free property: after successful local-ID assignment of a
function with at least one block, the numeric local IDs in traversal order
are exactly `0, 1, ..., k-1`. -/
theorem AssignIDs_gap_free {f f' : Function}
    (hne : f.blocks ≠ []) (h : Function.AssignIDs f = Except.ok f') :
    localIDNames f' = (List.range (localIDNames f').length).map Nat.repr := by
  obtain ⟨k, hle, hf⟩ := AssignIDs_IDRun hne h
  have hids : localIDNames f' = (List.range' 0 k).map Nat.repr := by
    simpa [localIDNames] using hf
  have hlen : (localIDNames f').length = k := by
    rw [hids]; simp
  rw [hlen, hids, List.range_eq_range']

/-! #### Idempotence of local-ID assignment -/

theorem assignParams_idem {fname : String} :
    ∀ {id : Nat} {ps ps' : List Param} {id' : Nat},
      assignParams fname id ps = Except.ok (ps', id') →
        assignParams fname id ps' = Except.ok (ps', id') := by
  intro id ps
  induction ps generalizing id with
  | nil =>
    intro ps' id' h
    simp only [assignParams] at h
    obtain ⟨h1, h2⟩ := eok_pair h
    rw [← h1, ← h2]
    simp only [assignParams]
  | cons p ps ih =>
    intro ps' id' h
    simp only [assignParams] at h
    obtain ⟨⟨n, id1⟩, hs, h⟩ := ebind_ok h
    obtain ⟨⟨ps1, id2⟩, hr, h⟩ := ebind_ok h
    obtain ⟨h1, h2⟩ := eok_pair h
    rw [← h1, ← h2]
    have hr' : assignParams fname id1 ps = Except.ok (ps1, id2) := hr
    simp only [assignParams, setName_idem hs, Bind.bind, Except.bind, ih hr']

theorem assignInst_idem {fname : String} {id : Nat} {i i' : Inst} {id' : Nat}
    (h : assignInst fname id i = Except.ok (i', id')) :
    assignInst fname id i' = Except.ok (i', id') := by
  cases i with
  | nonValue =>
    simp only [assignInst] at h
    obtain ⟨h1, h2⟩ := eok_pair h
    rw [← h1, ← h2]
    simp only [assignInst]
  | call n t =>
    simp only [assignInst] at h
    by_cases ht : (t == LLType.void) = true
    · rw [if_pos ht] at h
      obtain ⟨h1, h2⟩ := eok_pair h
      rw [← h1, ← h2]
      simp only [assignInst]
      rw [if_pos ht]
    · rw [if_neg ht] at h
      obtain ⟨⟨n', id1⟩, hs, h⟩ := ebind_ok h
      obtain ⟨h1, h2⟩ := eok_pair h
      rw [← h1, ← h2]
      simp only [assignInst, if_neg ht, setName_idem hs, Bind.bind, Except.bind]
  | namedValue n t =>
    simp only [assignInst] at h
    obtain ⟨⟨n', id1⟩, hs, h⟩ := ebind_ok h
    obtain ⟨h1, h2⟩ := eok_pair h
    rw [← h1, ← h2]
    simp only [assignInst, setName_idem hs, Bind.bind, Except.bind]

theorem assignTerm_idem {fname : String} {id : Nat} {t t' : Term} {id' : Nat}
    (h : assignTerm fname id t = Except.ok (t', id')) :
    assignTerm fname id t' = Except.ok (t', id') := by
  cases t with
  | nonValue =>
    simp only [assignTerm] at h
    obtain ⟨h1, h2⟩ := eok_pair h
    rw [← h1, ← h2]
    simp only [assignTerm]
  | invoke n ty =>
    simp only [assignTerm] at h
    by_cases ht : (ty == LLType.void) = true
    · rw [if_pos ht] at h
      obtain ⟨h1, h2⟩ := eok_pair h
      rw [← h1, ← h2]
      simp only [assignTerm]
      rw [if_pos ht]
    · rw [if_neg ht] at h
      obtain ⟨⟨n', id1⟩, hs, h⟩ := ebind_ok h
      obtain ⟨h1, h2⟩ := eok_pair h
      rw [← h1, ← h2]
      simp only [assignTerm, if_neg ht, setName_idem hs, Bind.bind, Except.bind]
  | namedValue n ty =>
    simp only [assignTerm] at h
    obtain ⟨⟨n', id1⟩, hs, h⟩ := ebind_ok h
    obtain ⟨h1, h2⟩ := eok_pair h
    rw [← h1, ← h2]
    simp only [assignTerm, setName_idem hs, Bind.bind, Except.bind]

theorem assignInsts_idem {fname : String} :
    ∀ {id : Nat} {is is' : List Inst} {id' : Nat},
      assignInsts fname id is = Except.ok (is', id') →
        assignInsts fname id is' = Except.ok (is', id') := by
  intro id is
  induction is generalizing id with
  | nil =>
    intro is' id' h
    simp only [assignInsts] at h
    obtain ⟨h1, h2⟩ := eok_pair h
    rw [← h1, ← h2]
    simp only [assignInsts]
  | cons i is ih =>
    intro is' id' h
    simp only [assignInsts] at h
    obtain ⟨⟨i1, id1⟩, hs, h⟩ := ebind_ok h
    obtain ⟨⟨is1, id2⟩, hr, h⟩ := ebind_ok h
    obtain ⟨h1, h2⟩ := eok_pair h
    rw [← h1, ← h2]
    have hr' : assignInsts fname id1 is = Except.ok (is1, id2) := hr
    simp only [assignInsts, assignInst_idem hs, Bind.bind, Except.bind, ih hr']

theorem assignBlock_idem {fname : String} {id : Nat} {b b' : BasicBlock} {id' : Nat}
    (h : assignBlock fname id b = Except.ok (b', id')) :
    assignBlock fname id b' = Except.ok (b', id') := by
  simp only [assignBlock] at h
  obtain ⟨⟨n, id1⟩, hs, h⟩ := ebind_ok h
  obtain ⟨⟨is, id2⟩, hi, h⟩ := ebind_ok h
  obtain ⟨⟨t, id3⟩, ht, h⟩ := ebind_ok h
  obtain ⟨h1, h2⟩ := eok_pair h
  rw [← h1, ← h2]
  have hi' : assignInsts fname id1 b.insts = Except.ok (is, id2) := hi
  have ht' : assignTerm fname id2 b.term = Except.ok (t, id3) := ht
  simp only [assignBlock, setName_idem hs, Bind.bind, Except.bind,
    assignInsts_idem hi', assignTerm_idem ht']

theorem assignBlocks_idem {fname : String} :
    ∀ {id : Nat} {bs bs' : List BasicBlock} {id' : Nat},
      assignBlocks fname id bs = Except.ok (bs', id') →
        assignBlocks fname id bs' = Except.ok (bs', id') := by
  intro id bs
  induction bs generalizing id with
  | nil =>
    intro bs' id' h
    simp only [assignBlocks] at h
    obtain ⟨h1, h2⟩ := eok_pair h
    rw [← h1, ← h2]
    simp only [assignBlocks]
  | cons b bs ih =>
    intro bs' id' h
    simp only [assignBlocks] at h
    obtain ⟨⟨b1, id1⟩, hs, h⟩ := ebind_ok h
    obtain ⟨⟨bs1, id2⟩, hr, h⟩ := ebind_ok h
    obtain ⟨h1, h2⟩ := eok_pair h
    rw [← h1, ← h2]
    have hr' : assignBlocks fname id1 bs = Except.ok (bs1, id2) := hr
    simp only [assignBlocks, assignBlock_idem hs, Bind.bind, Except.bind, ih hr']

theorem assignBlocks_length {fname : String} :
    ∀ {id : Nat} {bs bs' : List BasicBlock} {id' : Nat},
      assignBlocks fname id bs = Except.ok (bs', id') → bs'.length = bs.length := by
  intro id bs
  induction bs generalizing id with
  | nil =>
    intro bs' id' h
    simp only [assignBlocks] at h
    obtain ⟨h1, _⟩ := eok_pair h
    rw [← h1]
  | cons b bs ih =>
    intro bs' id' h
    simp only [assignBlocks] at h
    obtain ⟨⟨b1, id1⟩, hs, h⟩ := ebind_ok h
    obtain ⟨⟨bs1, id2⟩, hr, h⟩ := ebind_ok h
    obtain ⟨h1, _⟩ := eok_pair h
    rw [← h1]
    have hr' : assignBlocks fname id1 bs = Except.ok (bs1, id2) := hr
    simp [ih hr']

theorem AssignIDs_idem {f f' : Function}
    (h : Function.AssignIDs f = Except.ok f') :
    Function.AssignIDs f' = Except.ok f' := by
  unfold Function.AssignIDs at h
  by_cases hb : (f.blocks.length == 0) = true
  · rw [if_pos hb] at h
    have hf : f = f' := Except.ok.inj h
    rw [← hf]
    unfold Function.AssignIDs
    rw [if_pos hb]
  · rw [if_neg hb] at h
    obtain ⟨⟨ps, id1⟩, hp, h⟩ := ebind_ok h
    obtain ⟨⟨bs, id2⟩, hbs, h⟩ := ebind_ok h
    have hbs' : assignBlocks f.globalName id1 f.blocks = Except.ok (bs, id2) := hbs
    have hf' : ({ f with params := ps, blocks := bs } : Function) = f' := Except.ok.inj h
    unfold Function.AssignIDs
    rw [← hf']
    have hb2 : ¬((({ f with params := ps, blocks := bs } : Function).blocks.length == 0) = true) := by
      show ¬((bs.length == 0) = true)
      rw [assignBlocks_length hbs']
      exact hb
    rw [if_neg hb2]
    have hp2 : assignParams f.globalName 0 ps = Except.ok (ps, id1) := assignParams_idem hp
    have hbs2 : assignBlocks f.globalName id1 bs = Except.ok (bs, id2) := assignBlocks_idem hbs'
    show (do
      let (ps2, id1') ← assignParams f.globalName 0 ps
      let (bs2, _) ← assignBlocks f.globalName id1' bs
      Except.ok ({ f with params := ps2, blocks := bs2 } : Function)) =
        Except.ok ({ f with params := ps, blocks := bs } : Function)
    simp only [hp2, Bind.bind, Except.bind, hbs2]

/-! ### The spec's local-ID packing scenario

Parameters `(i32, i32 %x, i32)`, entry block with body
`add i32 ...; sub i32 ...` (two unnamed value-producing instructions) and a
non-value terminator (`ret`). -/

def exampleF : Function :=
  { globalName := "f"
  , params := [⟨"", LLType.intType 32⟩, ⟨"x", LLType.intType 32⟩, ⟨"", LLType.intType 32⟩]
  , blocks := [{ name := ""
               , insts := [Inst.namedValue "" (LLType.intType 32),
                           Inst.namedValue "" (LLType.intType 32)]
               , term := Term.nonValue }] }

/-- What `AssignIDs` actually produces on `exampleF`: the unnamed parameters
become `%0` and `%1` (the named parameter `%x` does not advance the
counter), the entry block becomes `%2`, the `add` result `%3`, the `sub`
result `%4`. -/
def exampleFAssigned : Function :=
  { globalName := "f"
  , params := [⟨"0", LLType.intType 32⟩, ⟨"x", LLType.intType 32⟩, ⟨"1", LLType.intType 32⟩]
  , blocks := [{ name := "2"
               , insts := [Inst.namedValue "3" (LLType.intType 32),
                           Inst.namedValue "4" (LLType.intType 32)]
               , term := Term.nonValue }] }

/-- C3, counterexample: on the spec's own scenario the claimed ID
assignment is wrong. The code assigns the unnamed parameters `%0` and `%1`
and the entry block `%2` — not `%0`, `%2` and block `%1` as claimed:
an already-named entity (`%x`) does not advance the counter. -/
theorem claim_C3_counterexample :
    Function.AssignIDs exampleF = Except.ok exampleFAssigned ∧
    exampleFAssigned.params.map Param.name = ["0", "x", "1"] ∧
    exampleFAssigned.blocks.map BasicBlock.name = ["2"] ∧
    ¬(exampleFAssigned.params.map Param.name = ["0", "x", "2"] ∧
      exampleFAssigned.blocks.map BasicBlock.name = ["1"]) := by
  refine ⟨rfl, rfl, rfl, by decide⟩

/-- C3 (amended): on the scenario's function, local-ID assignment gives the
unnamed parameters `%0` and `%1`, leaves `%x` named, gives the entry block
`%2`, the `add` result `%3` and the `sub` result `%4`; in general, for every
function with at least one block on which `AssignIDs` succeeds, the numeric
local IDs form a gap-free increasing sequence starting at 0, counting
parameters first, then blocks and value-producing instructions in source
order (named entities do not advance the counter). -/
theorem claim_C3 :
    (Function.AssignIDs exampleF = Except.ok exampleFAssigned ∧
      exampleFAssigned.params.map Param.name = ["0", "x", "1"] ∧
      exampleFAssigned.blocks.map BasicBlock.name = ["2"] ∧
      exampleFAssigned.blocks.flatMap (fun b => b.insts.filterMap Inst.assignableName?) =
        ["3", "4"]) ∧
    ∀ f f' : Function, f.blocks ≠ [] → Function.AssignIDs f = Except.ok f' →
      localIDNames f' = (List.range (localIDNames f').length).map Nat.repr := by
  refine ⟨⟨rfl, rfl, rfl, rfl⟩, ?_⟩
  intro f f' hne h
  exact AssignIDs_gap_free hne h

/-- C3, witness: the gap-free property, instantiated on the scenario
function (IDs `0 1 2 3 4` in traversal order). -/
theorem claim_C3_witness :
    localIDNames exampleFAssigned =
      (List.range (localIDNames exampleFAssigned).length).map Nat.repr :=
  claim_C3.2 exampleF exampleFAssigned (by decide) rfl

/-- C4: void calls, void invokes and non-value instructions and terminators
(stores, fences, ret, br, ...) are skipped by local-ID assignment: the
entity is unchanged, it receives no numeric ID, and the counter does not
advance — also when it sits in front of further instructions. -/
theorem claim_C4 :
    ∀ (fname n : String) (id : Nat) (rest : List Inst),
      (Inst.call n LLType.void).isVoidValue = true ∧
      (Term.invoke n LLType.void).isVoidValue = true ∧
      assignInst fname id (Inst.call n LLType.void) =
        Except.ok (Inst.call n LLType.void, id) ∧
      assignTerm fname id (Term.invoke n LLType.void) =
        Except.ok (Term.invoke n LLType.void, id) ∧
      assignInst fname id Inst.nonValue = Except.ok (Inst.nonValue, id) ∧
      assignTerm fname id Term.nonValue = Except.ok (Term.nonValue, id) ∧
      assignInsts fname id (Inst.call n LLType.void :: rest) =
        (assignInsts fname id rest).map (fun p => (Inst.call n LLType.void :: p.1, p.2)) := by
  intro fname n id rest
  refine ⟨rfl, rfl, by simp [assignInst], by simp [assignTerm], rfl, rfl, ?_⟩
  simp only [assignInsts, assignInst, if_pos (by rfl : (LLType.void == LLType.void) = true),
    Bind.bind, Except.bind]
  cases assignInsts fname id rest with
  | error e => rfl
  | ok p => rfl

theorem isLocalID_not_unnamed {got : String} (h : isLocalID got = true) :
    isUnnamed got = false := by
  unfold isLocalID at h
  unfold isUnnamed
  cases hc : (got == "") with
  | false => rfl
  | true => rw [hc] at h; simp at h

/-- C5: an entity already carrying a numeric name is checked against the
counter: on mismatch `AssignIDs` fails with `BadLocalID` naming the
function, the expected ID and the actual ID; on match the counter advances
by one. -/
theorem claim_C5 :
    ∀ (fname got : String) (id : Nat), isLocalID got = true →
      (got ≠ Nat.repr id →
        setName fname id got = Except.error (AsmError.badLocalID fname (Nat.repr id) got)) ∧
      (got = Nat.repr id → setName fname id got = Except.ok (got, id + 1)) := by
  intro fname got id hl
  have hu := isLocalID_not_unnamed hl
  constructor
  · intro hne
    unfold setName
    rw [if_neg (by simp [hu]), if_pos hl,
      if_pos (by simpa [bne_iff_ne] using (Ne.symm hne))]
  · intro heq
    unfold setName
    rw [if_neg (by simp [hu]), if_pos hl, if_neg (by simp [heq])]

/-- C5, witness: in function `@f` with counter 3, the numeric name `%7` is
rejected with `BadLocalID(f, %3, %7)`, while the numeric name `%3` is
accepted and advances the counter to 4. -/
theorem claim_C5_witness :
    setName "f" 3 "7" = Except.error (AsmError.badLocalID "f" "3" "7") ∧
    setName "f" 3 "3" = Except.ok ("3", 4) := by
  constructor
  · exact (claim_C5 "f" "7" 3 (by decide)).1 (by decide)
  · exact (claim_C5 "f" "3" 3 (by decide)).2 (by decide)

/-- C6: local-ID assignment is idempotent: if `AssignIDs` succeeds on `f`
producing `f'`, a second run on `f'` succeeds and returns `f'` unchanged
(parameters, blocks, instructions and terminators included). -/
theorem claim_C6 :
    ∀ f f' : Function, Function.AssignIDs f = Except.ok f' →
      Function.AssignIDs f' = Except.ok f' := by
  intro f f' h
  exact AssignIDs_idem h

/-- C6, witness: rerunning `AssignIDs` on the assigned scenario function is
a no-op. -/
theorem claim_C6_witness :
    Function.AssignIDs exampleFAssigned = Except.ok exampleFAssigned :=
  claim_C6 exampleF exampleFAssigned rfl

/-- C7: for a function with zero basic blocks (a declaration), local-ID
assignment succeeds and modifies nothing, parameter names included. -/
theorem claim_C7 :
    ∀ f : Function, f.blocks = [] → Function.AssignIDs f = Except.ok f := by
  intro f h
  unfold Function.AssignIDs
  rw [if_pos (by simp [h])]

/-- C7, witness: a declaration with one unnamed and one named parameter is
left untouched. -/
theorem claim_C7_witness :
    Function.AssignIDs
        { globalName := "g"
        , params := [⟨"", LLType.intType 32⟩, ⟨"y", LLType.intType 8⟩]
        , blocks := [] } =
      Except.ok
        { globalName := "g"
        , params := [⟨"", LLType.intType 32⟩, ⟨"y", LLType.intType 8⟩]
        , blocks := [] } :=
  claim_C7 _ rfl

/-- C9: for an alias whose aliasee has pointer type, `NewAlias` caches
exactly that pointer type, and `Alias.Type` returns it. -/
theorem claim_C9 :
    ∀ (name : String) (c : IRConstant) (e : LLType), c.typ = LLType.pointer e →
      NewAlias name c = some { globalName := name, aliasee := c, typ := some (LLType.pointer e) } ∧
      ∀ a : Alias, NewAlias name c = some a →
        Alias.getType a = some (LLType.pointer e, a) := by
  intro name c e h
  obtain ⟨t⟩ := c
  obtain rfl : t = LLType.pointer e := h
  constructor
  · rfl
  · intro a ha
    have h1 : NewAlias name ⟨LLType.pointer e⟩ =
        some ⟨name, ⟨LLType.pointer e⟩, some (LLType.pointer e)⟩ := rfl
    have h2 := Option.some.inj (h1.symm.trans ha)
    rw [← h2]
    rfl

/-- C9, witness: an alias of a constant of type `i8*` has type `i8*`. -/
theorem claim_C9_witness :
    NewAlias "p" ⟨LLType.pointer (LLType.intType 8)⟩ =
      some { globalName := "p", aliasee := ⟨LLType.pointer (LLType.intType 8)⟩
           , typ := some (LLType.pointer (LLType.intType 8)) } :=
  (claim_C9 "p" ⟨LLType.pointer (LLType.intType 8)⟩ (LLType.intType 8) rfl).1

/-- C10: constructing an alias over a non-pointer aliasee panics (both in
`NewAlias` and in `Alias.Type` on a nil cache), modelled as `none`; under
the precondition that the aliasee has pointer type the panic branch is
unreachable (the result is `some`). -/
theorem claim_C10 :
    ∀ (name : String) (c : IRConstant),
      ((∀ e, c.typ ≠ LLType.pointer e) →
        NewAlias name c = none ∧
        Alias.getType { globalName := name, aliasee := c, typ := none } = none) ∧
      ((∃ e, c.typ = LLType.pointer e) →
        (NewAlias name c).isSome = true ∧
        (Alias.getType { globalName := name, aliasee := c, typ := none }).isSome = true) := by
  intro name c
  obtain ⟨t⟩ := c
  constructor
  · intro hnp
    cases t with
    | void => exact ⟨rfl, rfl⟩
    | label => exact ⟨rfl, rfl⟩
    | intType k => exact ⟨rfl, rfl⟩
    | pointer e => exact absurd rfl (hnp e)
  · rintro ⟨e, he⟩
    obtain rfl : t = LLType.pointer e := he
    exact ⟨rfl, rfl⟩

/-- C10, witness: an `i32` aliasee panics; an `i8*` aliasee does not. -/
theorem claim_C10_witness :
    NewAlias "a" ⟨LLType.intType 32⟩ = none ∧
    (NewAlias "b" ⟨LLType.pointer (LLType.intType 8)⟩).isSome = true := by
  constructor
  · exact ((claim_C10 "a" ⟨LLType.intType 32⟩).1 (by intro e; simp)).1
  · exact ((claim_C10 "b" ⟨LLType.pointer (LLType.intType 8)⟩).2 ⟨LLType.intType 8, rfl⟩).1

end IR

namespace Asm

/-! ### Module assembly (`asm/translate.go`, `addDefsToModule`)

The generator state is split as in the source: `gen.old` carries, per kind,
the map keys (in the arbitrary order Go map iteration would deliver them)
and the recorded first-occurrence orders; `gen.new` carries the IR-side
lookup tables, modelled as partial functions. The payload types of the nine
entity kinds are type parameters: assembly never inspects them. -/

/-- The values of `gen.new.globals`: a global, alias, IFunc or function
definition (`*ir.Global`, `*ir.Alias`, `*ir.IFunc`, `*ir.Function`). -/
inductive GValue (Gl Al Ifn Fn : Type) where
  | global : Gl → GValue Gl Al Ifn Fn
  | aliasDef : Al → GValue Gl Al Ifn Fn
  | ifuncDef : Ifn → GValue Gl Al Ifn Fn
  | funcDef : Fn → GValue Gl Al Ifn Fn

/-- The AST-side index read by `addDefsToModule`: map keys per kind, and the
recorded first-occurrence orders (`globalOrder`, `indirectSymbolDefOrder`,
`funcOrder`, `namedMetadataDefOrder`). -/
structure GenOld (Gid : Type) where
  typeDefKeys : List String
  comdatDefKeys : List String
  globalOrder : List Gid
  indirectSymbolDefOrder : List Gid
  funcOrder : List Gid
  attrGroupKeys : List Int
  namedMetadataDefOrder : List String
  metadataDefKeys : List Int

/-- The IR-side tables read by `addDefsToModule`; a failed lookup is the
source's `panic`. -/
structure GenNew (Gid TD CD Gl Al Ifn Fn AG NM Md : Type) where
  typeDefs : String → Option TD
  comdatDefs : String → Option CD
  globals : Gid → Option (GValue Gl Al Ifn Fn)
  attrGroupDefs : Int → Option AG
  namedMetadataDefs : String → Option NM
  metadataDefs : Int → Option Md

/-- `ir.Module`: the nine per-kind entity lists filled by
`addDefsToModule`. -/
structure Module (TD CD Gl Al Ifn Fn AG NM Md : Type) where
  TypeDefs : List TD
  ComdatDefs : List CD
  Globals : List Gl
  Aliases : List Al
  IFuncs : List Ifn
  Funcs : List Fn
  AttrGroupDefs : List AG
  NamedMetadataDefs : List NM
  MetadataDefs : List Md

/-- `sort.Strings` / `sort.Slice(..., less)`: sorting the collected map keys
into ascending order. Go's sort is an unspecified comparison sort; its
output on the keys is characterized by being an ascending permutation of
the input, so any comparison sort models it. -/
def sortKeys {K : Type} [LinearOrder K] (ks : List K) : List K :=
  ks.insertionSort (· ≤ ·)

/-- One output loop of `addDefsToModule`: look each key up in the IR-side
table and append the definitions in key order; a missing entry panics. -/
def mapLookup {K B : Type} (f : K → Option B) : List K → Option (List B)
  | [] => some []
  | k :: ks =>
    match f k with
    | none => none
    | some d => (mapLookup f ks).map (fun ds => d :: ds)

/-- The global-variable output loop: each ident of `globalOrder` must
resolve to an `*ir.Global` (anything else panics). -/
def collectGlobals {Gid Gl Al Ifn Fn : Type} (g : Gid → Option (GValue Gl Al Ifn Fn)) :
    List Gid → Option (List Gl)
  | [] => some []
  | k :: ks =>
    match g k with
    | some (GValue.global d) => (collectGlobals g ks).map (fun ds => d :: ds)
    | _ => none

/-- The function output loop: each ident of `funcOrder` must resolve to an
`*ir.Function`. -/
def collectFuncs {Gid Gl Al Ifn Fn : Type} (g : Gid → Option (GValue Gl Al Ifn Fn)) :
    List Gid → Option (List Fn)
  | [] => some []
  | k :: ks =>
    match g k with
    | some (GValue.funcDef d) => (collectFuncs g ks).map (fun ds => d :: ds)
    | _ => none

/-- The indirect-symbol output loop: each ident of `indirectSymbolDefOrder`
is appended to the alias list or the IFunc list according to its type
switch (anything else panics). -/
def collectIndirect {Gid Gl Al Ifn Fn : Type} (g : Gid → Option (GValue Gl Al Ifn Fn)) :
    List Gid → Option (List Al × List Ifn)
  | [] => some ([], [])
  | k :: ks =>
    match g k with
    | some (GValue.aliasDef a) => (collectIndirect g ks).map (fun p => (a :: p.1, p.2))
    | some (GValue.ifuncDef i) => (collectIndirect g ks).map (fun p => (p.1, i :: p.2))
    | _ => none

/-- `addDefsToModule`: adds IR top-level declarations and definitions to the
module: type definitions in alphabetical key order, comdat definitions in
alphabetical key order, globals in `globalOrder`, aliases and IFuncs in
`indirectSymbolDefOrder`, functions in `funcOrder`, attribute group
definitions in ascending numeric ID, named metadata in
`namedMetadataDefOrder`, metadata definitions in ascending numeric ID. -/
def addDefsToModule {Gid TD CD Gl Al Ifn Fn AG NM Md : Type}
    (old : GenOld Gid) (new : GenNew Gid TD CD Gl Al Ifn Fn AG NM Md) :
    Option (Module TD CD Gl Al Ifn Fn AG NM Md) := do
  let typeDefs ← mapLookup new.typeDefs (sortKeys old.typeDefKeys)
  let comdatDefs ← mapLookup new.comdatDefs (sortKeys old.comdatDefKeys)
  let globals ← collectGlobals new.globals old.globalOrder
  let (aliases, ifuncs) ← collectIndirect new.globals old.indirectSymbolDefOrder
  let funcs ← collectFuncs new.globals old.funcOrder
  let attrGroupDefs ← mapLookup new.attrGroupDefs (sortKeys old.attrGroupKeys)
  let namedMetadataDefs ← mapLookup new.namedMetadataDefs old.namedMetadataDefOrder
  let metadataDefs ← mapLookup new.metadataDefs (sortKeys old.metadataDefKeys)
  some { TypeDefs := typeDefs, ComdatDefs := comdatDefs, Globals := globals
       , Aliases := aliases, IFuncs := ifuncs, Funcs := funcs
       , AttrGroupDefs := attrGroupDefs, NamedMetadataDefs := namedMetadataDefs
       , MetadataDefs := metadataDefs }

/-! #### Sorting facts -/

theorem sortKeys_perm {K : Type} [LinearOrder K] (l : List K) : (sortKeys l).Perm l :=
  List.perm_insertionSort (· ≤ ·) l

theorem sortKeys_sorted {K : Type} [LinearOrder K] (l : List K) :
    List.Sorted (· ≤ ·) (sortKeys l) :=
  List.sorted_insertionSort (· ≤ ·) l

theorem sortKeys_eq_of_perm {K : Type} [LinearOrder K] {l1 l2 : List K}
    (h : l1.Perm l2) : sortKeys l1 = sortKeys l2 :=
  List.eq_of_perm_of_sorted
    ((sortKeys_perm l1).trans (h.trans (sortKeys_perm l2).symm))
    (sortKeys_sorted l1) (sortKeys_sorted l2)

/-! #### Inverting the assembly loops -/

theorem obind_ok {α β : Type} {x : Option α} {f : α → Option β} {y : β}
    (h : (x >>= f) = some y) : ∃ a, x = some a ∧ f a = some y := by
  cases x with
  | none => simp [Bind.bind, Option.bind] at h
  | some a => exact ⟨a, rfl, by simpa [Bind.bind, Option.bind] using h⟩

theorem mapLookup_ok {K B : Type} {f : K → Option B} :
    ∀ {ks : List K} {ds : List B}, mapLookup f ks = some ds →
      ks.map f = ds.map some := by
  intro ks
  induction ks with
  | nil =>
    intro ds h
    simp only [mapLookup] at h
    rw [← Option.some.inj h]
    rfl
  | cons k ks ih =>
    intro ds h
    simp only [mapLookup] at h
    cases hk : f k with
    | none => rw [hk] at h; simp at h
    | some d =>
      rw [hk] at h
      cases hr : mapLookup f ks with
      | none => rw [hr] at h; simp at h
      | some ds1 =>
        rw [hr] at h
        simp only [Option.map_some] at h
        rw [← Option.some.inj h]
        simp [hk, ih hr]

theorem collectGlobals_ok {Gid Gl Al Ifn Fn : Type}
    {g : Gid → Option (GValue Gl Al Ifn Fn)} :
    ∀ {ks : List Gid} {ds : List Gl}, collectGlobals g ks = some ds →
      ks.map g = ds.map (fun d => some (GValue.global d)) := by
  intro ks
  induction ks with
  | nil =>
    intro ds h
    simp only [collectGlobals] at h
    rw [← Option.some.inj h]
    rfl
  | cons k ks ih =>
    intro ds h
    simp only [collectGlobals] at h
    cases hk : g k with
    | none => rw [hk] at h; simp at h
    | some v =>
      rw [hk] at h
      cases v with
      | global d =>
        cases hr : collectGlobals g ks with
        | none => rw [hr] at h; simp at h
        | some ds1 =>
          rw [hr] at h
          simp only [Option.map_some] at h
          rw [← Option.some.inj h]
          simp [hk, ih hr]
      | aliasDef a => simp at h
      | ifuncDef i => simp at h
      | funcDef fd => simp at h

theorem collectFuncs_ok {Gid Gl Al Ifn Fn : Type}
    {g : Gid → Option (GValue Gl Al Ifn Fn)} :
    ∀ {ks : List Gid} {ds : List Fn}, collectFuncs g ks = some ds →
      ks.map g = ds.map (fun d => some (GValue.funcDef d)) := by
  intro ks
  induction ks with
  | nil =>
    intro ds h
    simp only [collectFuncs] at h
    rw [← Option.some.inj h]
    rfl
  | cons k ks ih =>
    intro ds h
    simp only [collectFuncs] at h
    cases hk : g k with
    | none => rw [hk] at h; simp at h
    | some v =>
      rw [hk] at h
      cases v with
      | funcDef d =>
        cases hr : collectFuncs g ks with
        | none => rw [hr] at h; simp at h
        | some ds1 =>
          rw [hr] at h
          simp only [Option.map_some] at h
          rw [← Option.some.inj h]
          simp [hk, ih hr]
      | global d => simp at h
      | aliasDef a => simp at h
      | ifuncDef i => simp at h

/-- The alias component of a looked-up global value. -/
def aliasOf {Gl Al Ifn Fn : Type} : Option (GValue Gl Al Ifn Fn) → Option Al
  | some (GValue.aliasDef a) => some a
  | _ => none

/-- The IFunc component of a looked-up global value. -/
def ifuncOf {Gl Al Ifn Fn : Type} : Option (GValue Gl Al Ifn Fn) → Option Ifn
  | some (GValue.ifuncDef i) => some i
  | _ => none

theorem eok_pair_opt {a b : Type} {x : a} {y : b} {x' : a} {y' : b}
    (h : (some (x, y) : Option (a × b)) = some (x', y')) : x = x' ∧ y = y' := by
  have hp := Option.some.inj h
  exact ⟨congrArg Prod.fst hp, congrArg Prod.snd hp⟩

theorem collectIndirect_ok {Gid Gl Al Ifn Fn : Type}
    {g : Gid → Option (GValue Gl Al Ifn Fn)} :
    ∀ {ks : List Gid} {as2 : List Al} {is2 : List Ifn},
      collectIndirect g ks = some (as2, is2) →
        as2 = ks.filterMap (fun k => aliasOf (g k)) ∧
        is2 = ks.filterMap (fun k => ifuncOf (g k)) := by
  intro ks
  induction ks with
  | nil =>
    intro as2 is2 h
    simp only [collectIndirect] at h
    obtain ⟨h1, h2⟩ := eok_pair_opt h
    exact ⟨h1.symm ▸ rfl, h2.symm ▸ rfl⟩
  | cons k ks ih =>
    intro as2 is2 h
    simp only [collectIndirect] at h
    cases hk : g k with
    | none => rw [hk] at h; simp at h
    | some v =>
      rw [hk] at h
      cases v with
      | global d => simp at h
      | funcDef d => simp at h
      | aliasDef a =>
        cases hr : collectIndirect g ks with
        | none => rw [hr] at h; simp at h
        | some p =>
          rw [hr] at h
          simp only [Option.map_some] at h
          obtain ⟨h1, h2⟩ := eok_pair_opt h
          obtain ⟨ih1, ih2⟩ := ih hr
          constructor
          · rw [← h1, List.filterMap_cons]
            simp [aliasOf, hk, ih1]
          · rw [← h2, List.filterMap_cons]
            simp [ifuncOf, hk, ih2]
      | ifuncDef i =>
        cases hr : collectIndirect g ks with
        | none => rw [hr] at h; simp at h
        | some p =>
          rw [hr] at h
          simp only [Option.map_some] at h
          obtain ⟨h1, h2⟩ := eok_pair_opt h
          obtain ⟨ih1, ih2⟩ := ih hr
          constructor
          · rw [← h1, List.filterMap_cons]
            simp [aliasOf, hk, ih1]
          · rw [← h2, List.filterMap_cons]
            simp [ifuncOf, hk, ih2]

/-- C1: the assembled module orders entities per kind as specified: type
definitions alphabetically by name, comdat definitions alphabetically
(each comdat key emitted exactly once — the output is a permutation of the
keys), globals in source order, aliases and IFuncs each in source order
within the indirect-symbol group, functions in source order, attribute
group definitions in ascending numeric ID, named metadata in source order,
metadata definitions in ascending numeric ID. -/
theorem claim_C1 {Gid TD CD Gl Al Ifn Fn AG NM Md : Type}
    (old : GenOld Gid) (new : GenNew Gid TD CD Gl Al Ifn Fn AG NM Md)
    (m : Module TD CD Gl Al Ifn Fn AG NM Md)
    (h : addDefsToModule old new = some m) :
    (∃ ns, ns.Perm old.typeDefKeys ∧ List.Sorted (· ≤ ·) ns ∧
      mapLookup new.typeDefs ns = some m.TypeDefs) ∧
    (∃ ns, ns.Perm old.comdatDefKeys ∧ List.Sorted (· ≤ ·) ns ∧
      mapLookup new.comdatDefs ns = some m.ComdatDefs) ∧
    old.globalOrder.map new.globals = m.Globals.map (fun d => some (GValue.global d)) ∧
    m.Aliases = old.indirectSymbolDefOrder.filterMap (fun k => aliasOf (new.globals k)) ∧
    m.IFuncs = old.indirectSymbolDefOrder.filterMap (fun k => ifuncOf (new.globals k)) ∧
    old.funcOrder.map new.globals = m.Funcs.map (fun d => some (GValue.funcDef d)) ∧
    (∃ ids, ids.Perm old.attrGroupKeys ∧ List.Sorted (· ≤ ·) ids ∧
      mapLookup new.attrGroupDefs ids = some m.AttrGroupDefs) ∧
    old.namedMetadataDefOrder.map new.namedMetadataDefs = m.NamedMetadataDefs.map some ∧
    (∃ ids, ids.Perm old.metadataDefKeys ∧ List.Sorted (· ≤ ·) ids ∧
      mapLookup new.metadataDefs ids = some m.MetadataDefs) := by
  simp only [addDefsToModule] at h
  obtain ⟨tds, h1, h⟩ := obind_ok h
  obtain ⟨cds, h2, h⟩ := obind_ok h
  obtain ⟨gls, h3, h⟩ := obind_ok h
  obtain ⟨⟨als, ifs⟩, h4, h⟩ := obind_ok h
  obtain ⟨fns, h5, h⟩ := obind_ok h
  obtain ⟨ags, h6, h⟩ := obind_ok h
  obtain ⟨nms, h7, h⟩ := obind_ok h
  obtain ⟨mds, h8, h⟩ := obind_ok h
  have hm := Option.some.inj h
  rw [← hm]
  refine ⟨⟨sortKeys old.typeDefKeys, sortKeys_perm _, sortKeys_sorted _, h1⟩,
    ⟨sortKeys old.comdatDefKeys, sortKeys_perm _, sortKeys_sorted _, h2⟩,
    collectGlobals_ok h3, (collectIndirect_ok h4).1, (collectIndirect_ok h4).2,
    collectFuncs_ok h5,
    ⟨sortKeys old.attrGroupKeys, sortKeys_perm _, sortKeys_sorted _, h6⟩,
    mapLookup_ok h7,
    ⟨sortKeys old.metadataDefKeys, sortKeys_perm _, sortKeys_sorted _, h8⟩⟩

/-- A concrete IR-side table (payloads are bare naturals). -/
def exNew : GenNew String Nat Nat Nat Nat Nat Nat Nat Nat Nat :=
  { typeDefs := fun s => if s = "a" then some 10 else if s = "b" then some 11 else none
  , comdatDefs := fun s => if s = "c" then some 20 else none
  , globals := fun s =>
      if s = "g" then some (GValue.global 30)
      else if s = "al" then some (GValue.aliasDef 40)
      else if s = "ifn" then some (GValue.ifuncDef 50)
      else if s = "fn" then some (GValue.funcDef 60) else none
  , attrGroupDefs := fun i => if i = 1 then some 70 else if i = 2 then some 71 else none
  , namedMetadataDefs := fun s => if s = "n" then some 80 else none
  , metadataDefs := fun i => if i = 0 then some 90 else if i = 3 then some 91 else none }

/-- A concrete AST-side index whose key lists arrive out of order. -/
def exOld : GenOld String :=
  { typeDefKeys := ["a"], comdatDefKeys := ["c"], globalOrder := ["g"]
  , indirectSymbolDefOrder := ["al", "ifn"], funcOrder := ["fn"]
  , attrGroupKeys := [2, 1], namedMetadataDefOrder := ["n"], metadataDefKeys := [3, 0] }

/-- The module `addDefsToModule` assembles from `exOld` and `exNew`. -/
def exModule : Module Nat Nat Nat Nat Nat Nat Nat Nat Nat :=
  { TypeDefs := [10], ComdatDefs := [20], Globals := [30], Aliases := [40]
  , IFuncs := [50], Funcs := [60], AttrGroupDefs := [70, 71]
  , NamedMetadataDefs := [80], MetadataDefs := [90, 91] }

/-- C1, witness: the concrete assembly sorts the attribute group keys
`[2, 1]` to `[1, 2]` and the metadata keys `[3, 0]` to `[0, 3]`, and keeps
the recorded source orders. -/
theorem claim_C1_witness :
    addDefsToModule exOld exNew = some exModule ∧
    (∃ ns, ns.Perm exOld.typeDefKeys ∧ List.Sorted (· ≤ ·) ns ∧
      mapLookup exNew.typeDefs ns = some exModule.TypeDefs) ∧
    exModule.Aliases =
      exOld.indirectSymbolDefOrder.filterMap (fun k => aliasOf (exNew.globals k)) ∧
    (∃ ids, ids.Perm exOld.attrGroupKeys ∧ List.Sorted (· ≤ ·) ids ∧
      mapLookup exNew.attrGroupDefs ids = some exModule.AttrGroupDefs) := by
  have h : addDefsToModule exOld exNew = some exModule := by rfl
  have hc := claim_C1 exOld exNew exModule h
  exact ⟨h, hc.1, hc.2.2.2.1, hc.2.2.2.2.2.2.1⟩

/-- C8: translation output is deterministic: the assembled module is a pure
function of the recorded source orders and the key *sets* — it does not
depend on the order in which Go map iteration delivers the keys. -/
theorem claim_C8 {Gid TD CD Gl Al Ifn Fn AG NM Md : Type}
    (old1 old2 : GenOld Gid) (new : GenNew Gid TD CD Gl Al Ifn Fn AG NM Md)
    (ht : old1.typeDefKeys.Perm old2.typeDefKeys)
    (hc : old1.comdatDefKeys.Perm old2.comdatDefKeys)
    (ha : old1.attrGroupKeys.Perm old2.attrGroupKeys)
    (hmd : old1.metadataDefKeys.Perm old2.metadataDefKeys)
    (hg : old1.globalOrder = old2.globalOrder)
    (hi : old1.indirectSymbolDefOrder = old2.indirectSymbolDefOrder)
    (hf : old1.funcOrder = old2.funcOrder)
    (hn : old1.namedMetadataDefOrder = old2.namedMetadataDefOrder) :
    addDefsToModule old1 new = addDefsToModule old2 new := by
  unfold addDefsToModule
  rw [sortKeys_eq_of_perm ht, sortKeys_eq_of_perm hc, sortKeys_eq_of_perm ha,
    sortKeys_eq_of_perm hmd, hg, hi, hf, hn]

/-- `exOld` with its numeric key lists delivered in a different iteration
order. -/
def exOld2 : GenOld String :=
  { typeDefKeys := ["a"], comdatDefKeys := ["c"], globalOrder := ["g"]
  , indirectSymbolDefOrder := ["al", "ifn"], funcOrder := ["fn"]
  , attrGroupKeys := [1, 2], namedMetadataDefOrder := ["n"], metadataDefKeys := [0, 3] }

/-- C8, witness: permuting the map-iteration orders of the concrete index
leaves the assembled module unchanged. -/
theorem claim_C8_witness :
    addDefsToModule exOld exNew = addDefsToModule exOld2 exNew :=
  claim_C8 exOld exOld2 exNew (by decide) (by decide) (by decide) (by decide)
    rfl rfl rfl rfl

/-! ### The `translate` pipeline (`asm/translate.go`, `translate`)

The bodies of the four phase methods (`indexTopLevelEntities`,
`resolveTypeDefs`, `translateComdatDefs`, `createTopLevelEntities`,
`translateTopLevelEntities`), of `irUseListOrder`, `irUseListOrderBB` and
`fixBlockAddressConst`, and the generator state itself live outside the
verified source; they are abstracted as parameters, so the theorems below
hold for every implementation of them. What is embedded from the source is
`translate`'s control flow: the phase sequence, the three fix-up loops, the
early return on the first error, and the final assembly. -/

structure TranslateOps (AMod Gen Err U UB C UIR UBIR Mod : Type) where
  newGenerator : Unit → Gen
  indexTopLevelEntities : Gen → AMod → Except Err Gen
  resolveTypeDefs : Gen → Except Err Gen
  translateComdatDefs : Gen → Except Err Gen
  createTopLevelEntities : Gen → Except Err Gen
  translateTopLevelEntities : Gen → Except Err Gen
  oldUseListOrders : Gen → List U
  irUseListOrder : Gen → U → Except Err UIR
  addUseListOrder : Gen → UIR → Gen
  oldUseListOrderBBs : Gen → List UB
  irUseListOrderBB : Gen → UB → Except Err UBIR
  addUseListOrderBB : Gen → UBIR → Gen
  todo : Gen → List C
  fixBlockAddressConst : C → Except Err Unit
  addDefsToModule : Gen → Option Mod

section Translate

variable {AMod Gen Err U UB C UIR UBIR Mod : Type}

/-- Step 5 of `translate`: translate use-list orders, appending each
translated order to the module and aborting on the first error. -/
def loopUseListOrders (ops : TranslateOps AMod Gen Err U UB C UIR UBIR Mod) :
    List U → Gen → Except Err Gen
  | [], g => Except.ok g
  | u :: us, g =>
    match ops.irUseListOrder g u with
    | Except.error e => Except.error e
    | Except.ok uir => loopUseListOrders ops us (ops.addUseListOrder g uir)

/-- Step 6 of `translate`: translate basic-block-specific use-list
orders. -/
def loopUseListOrderBBs (ops : TranslateOps AMod Gen Err U UB C UIR UBIR Mod) :
    List UB → Gen → Except Err Gen
  | [], g => Except.ok g
  | u :: us, g =>
    match ops.irUseListOrderBB g u with
    | Except.error e => Except.error e
    | Except.ok uir => loopUseListOrderBBs ops us (ops.addUseListOrderBB g uir)

/-- Step 7 of `translate`: fix basic-block references in `blockaddress`
constants. -/
def loopFixBlockAddress (ops : TranslateOps AMod Gen Err U UB C UIR UBIR Mod) :
    List C → Gen → Except Err Gen
  | [], g => Except.ok g
  | c :: cs, g =>
    match ops.fixBlockAddressConst c with
    | Except.error e => Except.error e
    | Except.ok _ => loopFixBlockAddress ops cs g

/-- The eight steps of `translate`, in source order. -/
def phases (ops : TranslateOps AMod Gen Err U UB C UIR UBIR Mod) (old : AMod) :
    List (Gen → Except Err Gen) :=
  [ fun g => ops.indexTopLevelEntities g old
  , ops.resolveTypeDefs
  , ops.translateComdatDefs
  , ops.createTopLevelEntities
  , ops.translateTopLevelEntities
  , fun g => loopUseListOrders ops (ops.oldUseListOrders g) g
  , fun g => loopUseListOrderBBs ops (ops.oldUseListOrderBBs g) g
  , fun g => loopFixBlockAddress ops (ops.todo g) g ]

/-- Run a sequence of generator steps, aborting on the first error. -/
def runSeq : List (Gen → Except Err Gen) → Gen → Except Err Gen
  | [], g => Except.ok g
  | f :: fs, g =>
    match f g with
    | Except.error e => Except.error e
    | Except.ok g2 => runSeq fs g2

/-- `translate`: run the phases on a fresh generator; on the first error
return it (and no module); on success assemble and return the module.
`none` models the `panic` of a failed assembly lookup. -/
def translate (ops : TranslateOps AMod Gen Err U UB C UIR UBIR Mod) (old : AMod) :
    Option (Except Err Mod) :=
  match runSeq (phases ops old) (ops.newGenerator ()) with
  | Except.error e => some (Except.error e)
  | Except.ok gen =>
    match TranslateOps.addDefsToModule ops gen with
    | none => none
    | some m => some (Except.ok m)

theorem runSeq_append (fs gs : List (Gen → Except Err Gen)) (g : Gen) :
    runSeq (fs ++ gs) g =
      match runSeq fs g with
      | Except.error e => Except.error e
      | Except.ok g2 => runSeq gs g2 := by
  induction fs generalizing g with
  | nil => rfl
  | cons f fs ih =>
    show runSeq ((f :: fs) ++ gs) g = _
    simp only [List.cons_append, runSeq]
    cases f g with
    | error e => rfl
    | ok g2 => exact ih g2

/-- C2: `translate` either succeeds — all phases ran and the returned
module is the fully assembled one — or returns the first error in phase
order with no module: if the phases before `f` succeed and `f` fails with
`e`, the result is exactly `error e`, whatever the phases after `f` are
(they are not run). -/
theorem claim_C2 (ops : TranslateOps AMod Gen Err U UB C UIR UBIR Mod) (old : AMod) :
    (∀ m, translate ops old = some (Except.ok m) →
      ∃ gen, runSeq (phases ops old) (ops.newGenerator ()) = Except.ok gen ∧
        TranslateOps.addDefsToModule ops gen = some m) ∧
    (∀ e, runSeq (phases ops old) (ops.newGenerator ()) = Except.error e →
      translate ops old = some (Except.error e)) ∧
    (∀ (pre post : List (Gen → Except Err Gen)) (f : Gen → Except Err Gen) (g : Gen) (e : Err),
      phases ops old = pre ++ f :: post →
      runSeq pre (ops.newGenerator ()) = Except.ok g →
      f g = Except.error e →
      translate ops old = some (Except.error e) ∧
        ∀ post' : List (Gen → Except Err Gen),
          runSeq (pre ++ f :: post') (ops.newGenerator ()) = Except.error e) := by
  refine ⟨?_, ?_, ?_⟩
  · intro m h
    unfold translate at h
    cases hr : runSeq (phases ops old) (ops.newGenerator ()) with
    | error e => rw [hr] at h; simp at h
    | ok gen =>
      rw [hr] at h
      have h2 : (match TranslateOps.addDefsToModule ops gen with
          | none => (none : Option (Except Err Mod))
          | some m => some (Except.ok m)) = some (Except.ok m) := h
      cases ha : TranslateOps.addDefsToModule ops gen with
      | none => rw [ha] at h2; simp at h2
      | some m2 =>
        rw [ha] at h2
        have hm : m2 = m := Except.ok.inj (Option.some.inj h2)
        exact ⟨gen, rfl, by rw [ha, hm]⟩
  · intro e hr
    unfold translate
    rw [hr]
  · intro pre post f g e hph hpre hf
    have herr : ∀ post' : List (Gen → Except Err Gen),
        runSeq (pre ++ f :: post') (ops.newGenerator ()) = Except.error e := by
      intro post'
      rw [runSeq_append, hpre]
      show runSeq (f :: post') g = Except.error e
      simp only [runSeq, hf]
    refine ⟨?_, herr⟩
    unfold translate
    rw [hph, herr post]

/-- A concrete pipeline whose second phase (`resolveTypeDefs`) fails with
error 42; every state and payload type is `Nat`. -/
def exOps : TranslateOps Nat Nat Nat Nat Nat Nat Nat Nat Nat :=
  { newGenerator := fun _ => 0
  , indexTopLevelEntities := fun g _ => Except.ok (g + 1)
  , resolveTypeDefs := fun _ => Except.error 42
  , translateComdatDefs := Except.ok
  , createTopLevelEntities := Except.ok
  , translateTopLevelEntities := Except.ok
  , oldUseListOrders := fun _ => []
  , irUseListOrder := fun _ _ => Except.error 7
  , addUseListOrder := fun g _ => g
  , oldUseListOrderBBs := fun _ => []
  , irUseListOrderBB := fun _ _ => Except.error 7
  , addUseListOrderBB := fun g _ => g
  , todo := fun _ => []
  , fixBlockAddressConst := fun _ => Except.ok ()
  , addDefsToModule := fun _ => some 99 }

/-- C2, witness: on the concrete pipeline, `translate` returns the
`resolveTypeDefs` error 42 with no module, independently of the phases
after it. -/
theorem claim_C2_witness :
    translate exOps 0 = some (Except.error 42) ∧
    ∀ post' : List (Nat → Except Nat Nat),
      runSeq ((phases exOps 0).take 1 ++ TranslateOps.resolveTypeDefs exOps :: post')
        (exOps.newGenerator ()) = Except.error 42 := by
  have h := (claim_C2 exOps 0).2.2 ((phases exOps 0).take 1) ((phases exOps 0).drop 2)
    (TranslateOps.resolveTypeDefs exOps) 1 42 rfl rfl rfl
  exact ⟨h.1, h.2⟩

end Translate

end Asm

end Llvm